import Mathlib

/-!
Verification development for the helix-projects importer scripts
(`src/utils/DOM.js` and the two near-duplicate importer modules).

The JS code is shallowly embedded: a parsed document is a finite tree of
element / text / raw-markup nodes; selector queries, attribute access and
the block-building transformations are translated function by function from
the source.  JS strings are Lean `String`s; the handful of JS builtins the
code relies on (`charAt`, `substring`, `indexOf`, `trim`, `split`,
`String.prototype.replace` with the concrete regexes appearing in the
source) are modelled by small explicit helpers on `List Char`.
-/

namespace HelixDOM

/-- Data carried by a DOM element: tag name, attribute list (for
`getAttribute`), class list (for `classList.contains`) and inline style
properties (for `tag.style[prop]`). -/
structure ElemData where
  tag : String
  attrs : List (String × String)
  classes : List String
  style : List (String × String)
deriving DecidableEq

mutual
/-- A DOM node: an element with children, a text node, or raw markup that
was assigned through `innerHTML` (kept unparsed in the model). -/
inductive Node where
  | elem : ElemData → NodeList → Node
  | text : String → Node
  | raw : String → Node
/-- Children lists, as a mutually inductive list so that all tree
recursions are structural. -/
inductive NodeList where
  | nil : NodeList
  | cons : Node → NodeList → NodeList
end

/-- The CSS selectors the importer uses: plain tag names (`'title'`),
class selectors (`'.blogPostMain'`) and attribute-equality selectors
(`'[property="og:image"]'`). -/
inductive Selector where
  | tagName : String → Selector
  | className : String → Selector
  | attrEq : String → String → Selector
deriving DecidableEq

/-- `element.getAttribute(name)`: first binding of `name` in the attribute
list, `none` when absent (JS `null`). -/
def getAttr (d : ElemData) (n : String) : Option String :=
  (d.attrs.find? (fun p => p.1 == n)).map (fun p => p.2)

/-- `element.style[prop]`: first binding in the inline style list; `none`
models the empty string the CSSOM returns for an unset property (both are
falsy in the `if (url)` guards of the source). -/
def styleGet (d : ElemData) (prop : String) : Option String :=
  (d.style.find? (fun p => p.1 == prop)).map (fun p => p.2)

/-- Whether an element matches a selector. -/
def selMatches (s : Selector) (d : ElemData) : Bool :=
  match s with
  | .tagName t => d.tag == t
  | .className c => d.classes.contains c
  | .attrEq n v => getAttr d n == some v

mutual
/-- All elements of a subtree (the node itself included) matching a
selector, in document (pre-)order. -/
def qsaNode (sel : Selector) : Node → List Node
  | .elem d cs => (if selMatches sel d then [Node.elem d cs] else []) ++ qsaNodes sel cs
  | .text _ => []
  | .raw _ => []
/-- All matching elements below a list of siblings, in document order. -/
def qsaNodes (sel : Selector) : NodeList → List Node
  | .nil => []
  | .cons n rest => qsaNode sel n ++ qsaNodes sel rest
end

/-- `root.querySelectorAll(sel)`: matching descendants of `root`, in
document order (the root itself is not considered, per DOM semantics). -/
def querySelectorAll (root : Node) (sel : Selector) : List Node :=
  match root with
  | .elem _ cs => qsaNodes sel cs
  | _ => []

/-- `root.querySelector(sel)`: the first matching descendant. -/
def querySelector (root : Node) (sel : Selector) : Option Node :=
  (querySelectorAll root sel).head?

/-- Convert a children list to a Lean list. -/
def NodeList.toList : NodeList → List Node
  | .nil => []
  | .cons n rest => n :: rest.toList

/-- Build a children list from a Lean list. -/
def NodeList.ofList : List Node → NodeList
  | [] => .nil
  | n :: rest => .cons n (NodeList.ofList rest)

/-- Concatenation of children lists. -/
def NodeList.append : NodeList → NodeList → NodeList
  | .nil, b => b
  | .cons n rest, b => .cons n (rest.append b)

/-- Children of a node, as a Lean list (empty for non-elements). -/
def childrenOf : Node → List Node
  | .elem _ cs => cs.toList
  | _ => []

/-- Tag name of a node (empty for non-elements). -/
def tagOf : Node → String
  | .elem d _ => d.tag
  | _ => ""

/-- `parent.append(child)` / `parent.appendChild(child)`. -/
def appendChild (parent child : Node) : Node :=
  match parent with
  | .elem d cs => .elem d (cs.append (.cons child .nil))
  | n => n

mutual
/-- `node.textContent`: concatenation of all text below the node.  Raw
markup contributes its string (the importer only reads `textContent` of
elements whose content is plain text). -/
def textContentN : Node → String
  | .elem _ cs => textContentL cs
  | .text s => s
  | .raw s => s
/-- Text content of a list of siblings. -/
def textContentL : NodeList → String
  | .nil => ""
  | .cons n rest => textContentN n ++ textContentL rest
end

mutual
/-- A simple serializer backing the `innerHTML` getter; attributes are not
serialized, which is enough for everything the importer reads back. -/
def serializeN : Node → String
  | .elem d cs => "<" ++ d.tag ++ ">" ++ serializeL cs ++ "</" ++ d.tag ++ ">"
  | .text s => s
  | .raw s => s
/-- Serialization of a list of siblings. -/
def serializeL : NodeList → String
  | .nil => ""
  | .cons n rest => serializeN n ++ serializeL rest
end

/-- `element.innerHTML` (getter). -/
def innerHTML (n : Node) : String :=
  match n with
  | .elem _ cs => serializeL cs
  | .text s => s
  | .raw s => s

/-- `element.innerHTML = m` (setter): the previous children are dropped and
replaced by the raw markup. -/
def setInnerHTML (n : Node) (m : String) : Node :=
  match n with
  | .elem d _ => .elem d (.cons (.raw m) .nil)
  | x => x

/-- Shorthand for an element with only a tag name. -/
def mkTag (t : String) : ElemData :=
  { tag := t, attrs := [], classes := [], style := [] }

/-- `document.createElement('img')` followed by `img.src = src` (the `src`
IDL attribute reflects the `src` content attribute). -/
def mkImg (src : String) : Node :=
  .elem { tag := "img", attrs := [("src", src)], classes := [], style := [] } .nil

/-! ### JS string builtins used by the importer, modelled on `List Char` -/

/-- The character class `[A-Za-z0-9]` of the `cleanupName` regex. -/
def isAsciiAlnum (c : Char) : Bool :=
  ( 'A' ≤ c && c ≤ 'Z') || ( 'a' ≤ c && c ≤ 'z') || ( '0' ≤ c && c ≤ '9')

/-- `/[A-Za-z0-9]/.test(s.charAt(i))`: `charAt` out of range yields the
empty string, on which the test is false. -/
def alnumTest : Option Char → Bool
  | some c => isAsciiAlnum c
  | none => false

/-- Whitespace for `String.prototype.trim` (ASCII whitespace plus the
no-break space). -/
def isJsWhitespace (c : Char) : Bool :=
  c == ' ' || c == '\t' || c == '\n' || c == '\r'
    || c == Char.ofNat 11 || c == Char.ofNat 12 || c == Char.ofNat 160

/-- `s.trim()` on a character list. -/
def jsTrimL (l : List Char) : List Char :=
  ((l.dropWhile isJsWhitespace).reverse.dropWhile isJsWhitespace).reverse

/-- `s.split('\n')` on a character list. -/
def splitLinesL (l : List Char) : List (List Char) :=
  l.foldr
    (fun c acc =>
      if c = '\n' then [] :: acc
      else
        match acc with
        | a :: as => (c :: a) :: as
        | [] => [[c]])
    [[]]

/-- `s.replace(/[\n\t]/gm, '')`. -/
def removeNewlinesTabs (s : String) : String :=
  ⟨s.data.filter (fun c => !(c == '\n' || c == '\t'))⟩

/-- `s.substring(0, s.indexOf('T'))`: everything before the first `T`; when
there is no `T`, `indexOf` is `-1` and `substring(0, -1)` clamps to the
empty string. -/
def substringToIndexOfT (s : String) : String :=
  match s.data.findIdx? (fun c => c == 'T') with
  | some i => ⟨s.data.take i⟩
  | none => ""

/-- `s.replace(/c/g, '')` for a single character `c`. -/
def jsStripChar (c : Char) (s : String) : String :=
  ⟨s.data.filter (fun x => !(x == c))⟩

/-- `s.replace(/c/g, ' ')` for a single character `c`. -/
def replaceCharBySpace (c : Char) (s : String) : String :=
  ⟨s.data.map (fun x => if x = c then ' ' else x)⟩

/-- `s.startsWith(p)`. -/
def jsStartsWith (s p : String) : Bool :=
  p.data.isPrefixOf s.data

/-- `s.replace(/url\(/gm, '')`: one left-to-right pass removing every
occurrence of the four-character pattern `url(`. -/
def removeUrlOpen : List Char → List Char
  | 'u' :: 'r' :: 'l' :: '(' :: rest => removeUrlOpen rest
  | c :: rest => c :: removeUrlOpen rest
  | [] => []

/-! ### `DOM.js`: `DOM.createTable` and `DOM.replaceBackgroundByImg` -/

/-- A table cell value, as discriminated by `DOM.createTable`:
`typeof cell === 'string'`, `Array.isArray(cell)`, or a single element. -/
inductive Cell where
  | str : String → Cell
  | list : List Node → Cell
  | one : Node → Cell

/-- Build one `th`/`td` node from a cell value, per the three branches of
`DOM.createTable`: a string is inserted as raw markup via `innerHTML`, a
list has its elements appended in order, a single element is appended. -/
def createCellNode (isHeaderRow : Bool) (cell : Cell) : Node :=
  .elem (mkTag (if isHeaderRow then "th" else "td"))
    (match cell with
     | .str s => .cons (.raw s) .nil
     | .list l => NodeList.ofList l
     | .one n => .cons n .nil)

/-- Build one `tr` node from a row; `index` is the row's position in the
data (cells of row `0` become `th`, all others `td`). -/
def createRowNode (index : Nat) (row : List Cell) : Node :=
  .elem (mkTag "tr") (NodeList.ofList (row.map (createCellNode (index == 0))))

/-- `DOM.createTable(data, document)` (`src/utils/DOM.js` lines 14-37): one
`tr` per input row, in order, header cells in row 0.  The `document`
argument of the source is only a node factory and carries no data. -/
def createTable (data : List (List Cell)) : Node :=
  .elem (mkTag "table") (NodeList.ofList (data.enum.map (fun p => createRowNode p.1 p.2)))

/-- The `src` computation of `DOM.replaceBackgroundByImg` (line 42):
`url.replace(/url\(/gm, '').replace(/'/gm, '').replace(/\)/gm, '')` —
every occurrence of `url(`, of a single quote, and of `)` is removed, in
that order.  `Char.ofNat 39` is the single-quote character. -/
def stripUrlWrapper (s : String) : String :=
  ⟨(((removeUrlOpen s.data).filter (fun c => !(c == Char.ofNat 39))).filter
      (fun c => !(c == ')')))⟩

/-- `DOM.replaceBackgroundByImg(tag, document)` (lines 39-49), return
value: when the inline `background-image` is set (truthy), a fresh `img`
element with the extracted URL; otherwise the element itself. -/
def replaceBackgroundByImg (tag : Node) : Node :=
  match tag with
  | .elem d cs =>
    match styleGet d "background-image" with
    | some url => if url ≠ "" then mkImg (stripUrlWrapper url) else .elem d cs
    | none => .elem d cs
  | n => n

/-- The `tag.replaceWith(img)` side effect of `DOM.replaceBackgroundByImg`
on the parent, for a `tag` sitting between siblings `pre` and `post` in a
parent element `pd`: when the background image is truthy the tag's slot now
holds the new `img`, otherwise the parent is untouched. -/
def replaceBackgroundByImgParent (pd : ElemData) (pre : List Node) (tag : Node)
    (post : List Node) : Node :=
  match tag with
  | .elem d cs =>
    match styleGet d "background-image" with
    | some url =>
      if url ≠ "" then .elem pd (NodeList.ofList (pre ++ mkImg (stripUrlWrapper url) :: post))
      else .elem pd (NodeList.ofList (pre ++ Node.elem d cs :: post))
    | none => .elem pd (NodeList.ofList (pre ++ Node.elem d cs :: post))
  | n => .elem pd (NodeList.ofList (pre ++ n :: post))

/-! ### Importer: `cleanupName` -/

/-- `Importer.cleanupName(name)` (both variants, lines 77-88 and 301-312):
the first- and last-character tests are evaluated on the ORIGINAL input,
then `substring(1)` and `slice(0, -1)` are applied to the evolving value.
`charAt` out of range yields `""`, which fails the regex test. -/
def cleanupName (name : String) : String :=
  let firstChar := name.data.head?
  let lastChar := name.data.getLast?
  let n := name
  let n := if alnumTest firstChar then n else String.mk (n.data.drop 1)
  let n := if alnumTest lastChar then n else String.mk n.data.dropLast
  n

/-- The name derivation as the specification words it: strip exactly one
character from the start when the first character of the input is
non-alphanumeric, and exactly one character from the end when the last
character of the input is non-alphanumeric, and nothing else. -/
def cleanupNameSpec (name : String) : String :=
  let dropStart := if alnumTest name.data.head? then 0 else 1
  let dropEnd := if alnumTest name.data.getLast? then 0 else 1
  let core := name.data.drop dropStart
  String.mk (core.take (core.length - dropEnd))

/-! ### Importer: `createMetadata` -/

/-- A metadata map value: a string or an element (`meta.Author` and the
image fields hold elements). -/
inductive MetaValue where
  | str : String → MetaValue
  | el : Node → MetaValue

/-- One conditional insertion `if (x) { meta[k] = v }` of `createMetadata`:
a singleton segment when the optional value is there, nothing otherwise. -/
def metaEntry (k : String) (v : Option MetaValue) : List (String × MetaValue) :=
  match v with
  | some value => [(k, value)]
  | none => []

/-- Whether a key is present in a metadata map. -/
def metaHasKey (k : String) (m : List (String × MetaValue)) : Bool :=
  m.any (fun p => p.1 == k)

/-- `meta` element IDL reflection: `node.content` is the `content`
attribute, the empty string when absent. -/
def contentOf (n : Node) : String :=
  match n with
  | .elem d _ => (getAttr d "content").getD ""
  | _ => ""

/-- `Title` (lines 93-96): `document.querySelector('title')`, value its
`innerHTML` with newlines and tabs removed. -/
def titleValue (document : Node) : Option MetaValue :=
  (querySelector document (.tagName "title")).map
    (fun t => .str (removeNewlinesTabs (innerHTML t)))

/-- `Description` (lines 98-101): the `og:description` meta content. -/
def descriptionValue (document : Node) : Option MetaValue :=
  (querySelector document (.attrEq "property" "og:description")).map
    (fun m => .str (contentOf m))

/-- `Category` (lines 103-106): the `article:section` meta content. -/
def categoryValue (document : Node) : Option MetaValue :=
  (querySelector document (.attrEq "property" "article:section")).map
    (fun m => .str (contentOf m))

/-- `Publication Date` (lines 108-111): the part of the
`article:published_time` content before its `T` separator. -/
def publicationDateValue (document : Node) : Option MetaValue :=
  (querySelector document (.attrEq "property" "article:published_time")).map
    (fun m => .str (substringToIndexOfT (contentOf m)))

/-- `Author` (lines 113-116): the `[rel="author"]` element of the main
region, stored as an element. -/
def authorValue (main : Node) : Option MetaValue :=
  (querySelector main (.attrEq "rel" "author")).map .el

/-- `Read Time` (lines 118-125): only when the `.blogPostContent__metaTop`
element exists AND its trimmed text splits on newlines into exactly three
parts is the trimmed third part recorded. -/
def readTimeValue (main : Node) : Option MetaValue :=
  (querySelector main (.className "blogPostContent__metaTop")).bind
    (fun metatop =>
      let split := splitLinesL (jsTrimL (textContentN metatop).data)
      if split.length = 3 then some (.str (String.mk (jsTrimL (split.getD 2 [])))) else none)

/-- `Image` (lines 127-132): a fresh `img` element whose source is the
`og:image` meta content. -/
def imageValue (document : Node) : Option MetaValue :=
  (querySelector document (.attrEq "property" "og:image")).map
    (fun m => .el (mkImg (contentOf m)))

/-- `Importer.createMetadata(main, document)` (variant 1, lines 90-138):
the returned metadata map, assembled in program order by the conditional
insertions above.  The function also appends
`Blocks.getMetadataBlock(document, meta)` to `main`; that renderer lives in
the external `@adobe/helix-importer` collaborator and is not modelled — the
claims are about the returned map. -/
def createMetadata (main document : Node) : List (String × MetaValue) :=
  metaEntry "Title" (titleValue document)
    ++ metaEntry "Description" (descriptionValue document)
    ++ metaEntry "Category" (categoryValue document)
    ++ metaEntry "Publication Date" (publicationDateValue document)
    ++ metaEntry "Author" (authorValue main)
    ++ metaEntry "Read Time" (readTimeValue main)
    ++ metaEntry "Image" (imageValue document)

/-- The `image` member of a yoast `@graph` entry; `url` may be absent. -/
structure YoastImage where
  url : Option String

/-- One entry of the yoast `@graph` array; `image` may be absent
(`entry.image?.url` then yields `undefined`). -/
structure YoastEntry where
  image : Option YoastImage

/-- The parsed yoast object: `obj['@graph']` may be absent (falsy). -/
structure YoastObj where
  graph : Option (List YoastEntry)

/-- Variant 2 `Card Image` extraction (lines 358-371):
`const url = obj['@graph'] && obj['@graph'].length > 1 ? obj['@graph'][2].image?.url : null`.
The inputs model the two JS builtins involved: `yoastMatch` is the capture
group of `html.match(/yoast-schema-graph yoast-schema-graph--main'>(.*)<\/script>/)`
when the regex matched, and `parseYoast` models `JSON.parse` (returning
`none` both when the parse throws and when the parsed value has no object
fields, e.g. JSON `null` — in every such case the `catch` swallows the
error and the field is omitted).  When `@graph` has more than one but fewer
than three entries, `obj['@graph'][2]` is `undefined` and the `.image`
access throws; the `catch` again omits the field. -/
def cardImageUrl (yoastMatch : Option String) (parseYoast : String → Option YoastObj) :
    Option String :=
  match yoastMatch with
  | none => none
  | some cap =>
    match parseYoast cap with
    | none => none
    | some obj =>
      match obj.graph with
      | none => none
      | some g =>
        if g.length > 1 then
          match g.get? 2 with
          | none => none
          | some entry =>
            match entry.image with
            | none => none
            | some im =>
              match im.url with
              | none => none
              | some u => if u = "" then none else some u
        else none

/-- `Card Image` (variant 2, lines 358-371): a fresh `img` element when the
yoast chain yields a truthy url. -/
def cardImageValue (yoastMatch : Option String)
    (parseYoast : String → Option YoastObj) : Option MetaValue :=
  (cardImageUrl yoastMatch parseYoast).map (fun u => .el (mkImg u))

/-- `Importer.createMetadata(main, document, html)` (variant 2, lines
314-377): the seven fields of variant 1 followed by `Card Image`. -/
def createMetadataV2 (main document : Node) (yoastMatch : Option String)
    (parseYoast : String → Option YoastObj) : List (String × MetaValue) :=
  metaEntry "Title" (titleValue document)
    ++ metaEntry "Description" (descriptionValue document)
    ++ metaEntry "Category" (categoryValue document)
    ++ metaEntry "Publication Date" (publicationDateValue document)
    ++ metaEntry "Author" (authorValue main)
    ++ metaEntry "Read Time" (readTimeValue main)
    ++ metaEntry "Image" (imageValue document)
    ++ metaEntry "Card Image" (cardImageValue yoastMatch parseYoast)

/-! ### Importer: `createEmbeds` -/

/-- The anchor markup `` `<a href="${src}">${src}</a>` `` interpolated by
`createEmbeds` (line 147). -/
def anchorMarkup (src : String) : String :=
  "<a href=\x22" ++ src ++ "\x22>" ++ src ++ "</a>"

/-- `src = src && src.startsWith('//') ? `https:${src}` : src` followed by
the `if (src)` truthiness guard (lines 142-144): `none` when the attribute
is absent (`null`) or the empty string, otherwise the possibly
`https:`-prefixed value. -/
def resolveEmbedSrc : Option String → Option String
  | none => none
  | some s =>
    if s = "" then none
    else if jsStartsWith s "//" then some ("https:" ++ s) else some s

/-- The `Embed` block table an iframe is replaced with (lines 145-148). -/
def embedTable (src : String) : Node :=
  createTable [[Cell.str "Embed"], [Cell.str (anchorMarkup src)]]

mutual
/-- `Importer.createEmbeds` applied to one node of the tree: an `iframe`
with a usable `src` is replaced by its `Embed` block; everything else keeps
its place, with the transformation carried on below it. -/
def replaceEmbedsN : Node → Node
  | .elem d cs =>
    if d.tag == "iframe" then
      match resolveEmbedSrc (getAttr d "src") with
      | some u => embedTable u
      | none => .elem d (replaceEmbedsL cs)
    else .elem d (replaceEmbedsL cs)
  | .text s => .text s
  | .raw s => .raw s
/-- The embed replacement over a list of siblings. -/
def replaceEmbedsL : NodeList → NodeList
  | .nil => .nil
  | .cons n rest => .cons (replaceEmbedsN n) (replaceEmbedsL rest)
end

/-- `Importer.createEmbeds(main, document)` (lines 140-151): each iframe of
the main region (`main.querySelectorAll('iframe')`) with a usable `src` is
replaced in place by an `Embed` block. -/
def createEmbeds (main : Node) : Node :=
  match main with
  | .elem d cs => .elem d (replaceEmbedsL cs)
  | n => n

/-! ### Importer: `createCallouts` -/

/-- The block name computation of `createCallouts` (lines 156-162): base
name `Callout`, `' (right)'` appended if the container carries the right
modifier class, otherwise `' (left)'` appended if it carries the left
modifier class. -/
def calloutBlockName (callout : Node) : String :=
  match callout with
  | .elem d _ =>
    let blockName := "Callout"
    if d.classes.contains "blogPostContent__ctaContainer--right" then blockName ++ " (right)"
    else if d.classes.contains "blogPostContent__ctaContainer--left" then blockName ++ " (left)"
    else blockName
  | _ => "Callout"

/-- The container `div` of a callout block (lines 166-180): an `h3` built
from the text of `.blogPostContent__ctaText` when present, then a `p`
built from the markup of `.blogPostContent__ctaSubheading` when present. -/
def calloutContainer (callout : Node) : Node :=
  .elem (mkTag "div")
    (NodeList.ofList
      ((match querySelector callout (.className "blogPostContent__ctaText") with
        | some firstText => [Node.elem (mkTag "h3") (.cons (.raw (textContentN firstText)) .nil)]
        | none => []) ++
       (match querySelector callout (.className "blogPostContent__ctaSubheading") with
        | some sub => [Node.elem (mkTag "p") (.cons (.raw (innerHTML sub)) .nil)]
        | none => [])))

/-- The rows pushed for one callout (lines 155-187): the block-name header
row, the container row (always), and a row holding the first `a` descendant
when one exists. -/
def calloutRows (callout : Node) : List (List Cell) :=
  [[Cell.str (calloutBlockName callout)], [Cell.one (calloutContainer callout)]]
    ++ (match querySelector callout (.tagName "a") with
        | some cta => [[Cell.one cta]]
        | none => [])

/-- The block table one callout is replaced with (line 188). -/
def createCalloutTable (callout : Node) : Node :=
  createTable (calloutRows callout)

mutual
/-- `Importer.createCallouts` applied to one node: a
`.blogPostContent__ctaContainer` element is replaced by its block table;
everything else keeps its place. -/
def replaceCalloutsN : Node → Node
  | .elem d cs =>
    if d.classes.contains "blogPostContent__ctaContainer" then
      createCalloutTable (.elem d cs)
    else .elem d (replaceCalloutsL cs)
  | .text s => .text s
  | .raw s => .raw s
/-- The callout replacement over a list of siblings. -/
def replaceCalloutsL : NodeList → NodeList
  | .nil => .nil
  | .cons n rest => .cons (replaceCalloutsN n) (replaceCalloutsL rest)
end

/-- `Importer.createCallouts(main, document)` (lines 153-190). -/
def createCallouts (main : Node) : Node :=
  match main with
  | .elem d cs => .elem d (replaceCalloutsL cs)
  | n => n

/-! ### Importer: `createRelatedPostsBlock` -/

/-- `r.innerHTML = r.getAttribute('href')` (line 199): the link's children
become its raw `href` value (the `innerHTML` setter turns a `null`
attribute into the empty string). -/
def hrefRewrite (r : Node) : Node :=
  match r with
  | .elem d _ => .elem d (.cons (.raw ((getAttr d "href").getD "")) .nil)
  | n => n

/-- The cells of the Related Posts block (lines 195-201): the header row,
then one row per matched link. -/
def relatedPostsCells (document : Node) : List (List Cell) :=
  [Cell.str "Related Posts"]
    :: (querySelectorAll document (.className "blogPostsBlock__titleLink")).map
        (fun r => [Cell.one (hrefRewrite r)])

/-- `Importer.createRelatedPostsBlock(main, document)` (lines 192-205,
identical in variant 2 at 438-451): `document.querySelectorAll` returns a
NodeList object, which is truthy even when empty, so the `if (related)`
guard always passes and the table — header row included — is appended to
`main` unconditionally. -/
def createRelatedPostsBlock (main document : Node) : Node :=
  appendChild main (createTable (relatedPostsCells document))

/-! ### Importer: `postProcessMD` -/

/-- The no-break space ` `. -/
def nbspChar : Char := Char.ofNat 160

/-- `Importer.postProcessMD(md)` (variant 1, lines 214-218): the rendering
of the external `super.postProcessMD` collaborator (`superPost`), with all
no-break spaces removed. -/
def postProcessMD (superPost : String → String) (md : String) : String :=
  let ret := superPost md
  jsStripChar nbspChar ret

/-- The character swept at loop index `i` of variant 2's `postProcessMD`
(lines 462-467): the two decimal digits of `i` are read as hexadecimal, so
the 20 iterations cover code points 0-9 and 16-25. -/
def v2SweepChar (i : Nat) : Char :=
  Char.ofNat (if i < 10 then i else 16 + (i - 10))

/-- `Importer.postProcessMD(md)` (variant 2, lines 460-473): for each of
the 20 loop iterations the replacement string is
`[c.length].map(() => ' ').join('')`, i.e. the single-element array `[1]`
mapped to `[' ']` and joined — a single space.  Each swept character is
therefore replaced by a space, and only then are no-break spaces removed. -/
def postProcessMDv2 (superPost : String → String) (md : String) : String :=
  let ret := superPost md
  let ret := (List.range 20).foldl (fun r i => replaceCharBySpace (v2SweepChar i) r) ret
  jsStripChar nbspChar ret

/-- The 20 code points swept by variant 2's `postProcessMD`. -/
def sweepChars : List Char :=
  (List.range 20).map v2SweepChar

/-! ### Helper lemmas -/

theorem NodeList.toList_ofList (l : List Node) : (NodeList.ofList l).toList = l := by
  induction l with
  | nil => rfl
  | cons n rest ih => simp [NodeList.ofList, NodeList.toList, ih]

theorem NodeList.toList_append : ∀ a b : NodeList,
    (a.append b).toList = a.toList ++ b.toList
  | .nil, _ => rfl
  | .cons n rest, b => by
    simp [NodeList.append, NodeList.toList, NodeList.toList_append rest b]

theorem childrenOf_createTable (data : List (List Cell)) :
    childrenOf (createTable data) = data.enum.map (fun p => createRowNode p.1 p.2) := by
  simp [createTable, childrenOf, NodeList.toList_ofList]

theorem enumFrom_rows (rest : List (List Cell)) :
    ∀ k : Nat, k ≠ 0 →
      (List.enumFrom k rest).map (fun p => createRowNode p.1 p.2)
        = rest.map (fun row =>
            Node.elem (mkTag "tr") (NodeList.ofList (row.map (createCellNode false)))) := by
  induction rest with
  | nil => intro k _; rfl
  | cons row rest ih =>
    intro k hk
    have hkb : (k == 0) = false := by simpa using hk
    rw [List.enumFrom_cons]
    simp only [List.map_cons]
    rw [ih (k + 1) (Nat.succ_ne_zero k)]
    simp [createRowNode, hkb]

theorem childrenOf_createTable_cons (r0 : List Cell) (rest : List (List Cell)) :
    childrenOf (createTable (r0 :: rest))
      = createRowNode 0 r0
          :: rest.map (fun row =>
              Node.elem (mkTag "tr") (NodeList.ofList (row.map (createCellNode false)))) := by
  rw [childrenOf_createTable, List.enum_cons]
  simp [enumFrom_rows rest 1 one_ne_zero]

theorem metaHasKey_append (k : String) (m1 m2 : List (String × MetaValue)) :
    metaHasKey k (m1 ++ m2) = (metaHasKey k m1 || metaHasKey k m2) := by
  simp [metaHasKey]

theorem metaHasKey_metaEntry (k k' : String) (v : Option MetaValue) :
    metaHasKey k (metaEntry k' v) = (v.isSome && (k' == k)) := by
  cases v <;> simp [metaHasKey, metaEntry]

theorem sweepFoldl (idxs : List Nat) : ∀ r : String,
    (idxs.foldl (fun acc i => replaceCharBySpace (v2SweepChar i) acc) r).data
      = r.data.map (fun c => if c ∈ idxs.map v2SweepChar then ' ' else c) := by
  induction idxs with
  | nil => intro r; simp
  | cons i rest ih =>
    intro r
    simp only [List.foldl_cons, ih, List.map_cons]
    show (String.mk (r.data.map (fun x => if x = v2SweepChar i then ' ' else x))).data.map _ = _
    rw [List.map_map]
    refine List.map_congr_left (fun c _ => ?_)
    by_cases hci : c = v2SweepChar i
    · simp [Function.comp, hci]
    · simp [Function.comp, hci]

/-! ### Claim theorems -/

/-- Claim C4: for every URL path segment string, `cleanupName` strips
exactly one character from the start if the first character is
non-alphanumeric and exactly one character from the end if the last
character is non-alphanumeric (both tests on the original input), and
strips nothing else — it agrees everywhere with `cleanupNameSpec`, the
direct rendering of that description; in particular `"-my-post-"` yields
`"my-post"`. -/
theorem claim_C4_cleanupName :
    (∀ name : String, cleanupName name = cleanupNameSpec name)
    ∧ cleanupName "-my-post-" = "my-post" := by
  constructor
  · intro name
    have takeLen : ∀ l : List Char, List.take (l.length - 0) l = l := by
      intro l; simp
    cases h1 : alnumTest name.data.head? <;> cases h2 : alnumTest name.data.getLast? <;>
      simp only [cleanupName, cleanupNameSpec, h1, h2, Bool.false_eq_true, eq_self_iff_true,
        if_true, if_false, List.drop_zero, takeLen, List.dropLast_eq_take, Nat.sub_zero,
        List.take_length]
  · decide

/-- Claim C9: `cleanupName` evaluates its first- and last-character tests
against the original input before any stripping, so every one-character
name whose only character is non-alphanumeric, and every two-character name
with both characters non-alphanumeric, collapse to the empty string. -/
theorem claim_C9_cleanupName_degenerate :
    (∀ c : Char, isAsciiAlnum c = false → cleanupName (String.mk [c]) = "")
    ∧ (∀ c d : Char, isAsciiAlnum c = false → isAsciiAlnum d = false →
        cleanupName (String.mk [c, d]) = "") := by
  constructor
  · intro c h
    simp [cleanupName, alnumTest, h]
  · intro c d hc hd
    have hlast : (String.mk [c, d]).data.getLast? = some d := rfl
    simp [cleanupName, alnumTest, hc, hd, hlast]

/-- Witness for C9 at the concrete names `"-"` and `"--"`. -/
theorem claim_C9_witness :
    isAsciiAlnum (Char.ofNat 45) = false
    ∧ cleanupName (String.mk [Char.ofNat 45]) = ""
    ∧ cleanupName (String.mk [Char.ofNat 45, Char.ofNat 45]) = "" :=
  ⟨by decide, claim_C9_cleanupName_degenerate.1 (Char.ofNat 45) (by decide),
    claim_C9_cleanupName_degenerate.2 (Char.ofNat 45) (Char.ofNat 45) (by decide) (by decide)⟩

/-- Claim C5: `createTable` yields one row per input row in order; every
cell of row 0 is a `th` and every cell of every later row is a `td`; a
string cell is inserted as raw markup, a list cell's elements become the
cell's children in order, and a single-element cell is appended directly;
rows `[["H"], ["a"]]` produce a header cell containing `"H"` and a body
cell containing `"a"`. -/
theorem claim_C5_createTable :
    (∀ data : List (List Cell), (childrenOf (createTable data)).length = data.length)
    ∧ (∀ (r0 : List Cell) (rest : List (List Cell)),
        childrenOf (createTable (r0 :: rest))
          = Node.elem (mkTag "tr") (NodeList.ofList (r0.map (createCellNode true)))
              :: rest.map (fun row =>
                  Node.elem (mkTag "tr") (NodeList.ofList (row.map (createCellNode false)))))
    ∧ (∀ c : Cell, tagOf (createCellNode true c) = "th")
    ∧ (∀ c : Cell, tagOf (createCellNode false c) = "td")
    ∧ (∀ (b : Bool) (s : String), childrenOf (createCellNode b (Cell.str s)) = [Node.raw s])
    ∧ (∀ (b : Bool) (l : List Node), childrenOf (createCellNode b (Cell.list l)) = l)
    ∧ (∀ (b : Bool) (n : Node), childrenOf (createCellNode b (Cell.one n)) = [n])
    ∧ createTable [[Cell.str "H"], [Cell.str "a"]]
        = Node.elem (mkTag "table")
            (.cons (Node.elem (mkTag "tr")
                (.cons (Node.elem (mkTag "th") (.cons (.raw "H") .nil)) .nil))
              (.cons (Node.elem (mkTag "tr")
                  (.cons (Node.elem (mkTag "td") (.cons (.raw "a") .nil)) .nil)) .nil)) := by
  refine ⟨?_, ?_, ?_, ?_, ?_, ?_, ?_, rfl⟩
  · intro data
    simp [childrenOf_createTable]
  · intro r0 rest
    rw [childrenOf_createTable_cons]
    rfl
  · intro c; rfl
  · intro c; rfl
  · intro b s; cases b <;> rfl
  · intro b l; cases b <;> simp [createCellNode, childrenOf, NodeList.toList_ofList]
  · intro b n; cases b <;> rfl

/-- Claim C1: `createRelatedPostsBlock` appends to the main-content region
a table whose header row is `Related Posts` followed by one row per
element matching `.blogPostsBlock__titleLink`, with each link's inner
markup replaced by its `href` attribute value; because the guard tests
the truthiness of the query result (a NodeList object) rather than its
length, the block — header row only — is appended even when zero elements
match. -/
theorem claim_C1_relatedPostsBlock :
    ∀ (d : ElemData) (cs : NodeList) (document : Node),
      createRelatedPostsBlock (Node.elem d cs) document
        = Node.elem d (cs.append (.cons (createTable (relatedPostsCells document)) .nil))
      ∧ childrenOf (createTable (relatedPostsCells document))
        = Node.elem (mkTag "tr")
              (.cons (Node.elem (mkTag "th") (.cons (.raw "Related Posts") .nil)) .nil)
            :: (querySelectorAll document (.className "blogPostsBlock__titleLink")).map
                (fun r => Node.elem (mkTag "tr")
                  (.cons (Node.elem (mkTag "td") (.cons (hrefRewrite r) .nil)) .nil))
      ∧ (querySelectorAll document (.className "blogPostsBlock__titleLink") = [] →
          childrenOf (createTable (relatedPostsCells document))
            = [Node.elem (mkTag "tr")
                (.cons (Node.elem (mkTag "th") (.cons (.raw "Related Posts") .nil)) .nil)]) := by
  intro d cs document
  have hrows : childrenOf (createTable (relatedPostsCells document))
      = Node.elem (mkTag "tr")
            (.cons (Node.elem (mkTag "th") (.cons (.raw "Related Posts") .nil)) .nil)
          :: (querySelectorAll document (.className "blogPostsBlock__titleLink")).map
              (fun r => Node.elem (mkTag "tr")
                (.cons (Node.elem (mkTag "td") (.cons (hrefRewrite r) .nil)) .nil)) := by
    show childrenOf (createTable ([Cell.str "Related Posts"]
        :: (querySelectorAll document (.className "blogPostsBlock__titleLink")).map
            (fun r => [Cell.one (hrefRewrite r)]))) = _
    rw [childrenOf_createTable_cons, List.map_map]
    rfl
  refine ⟨rfl, hrows, fun hempty => ?_⟩
  rw [hrows, hempty]
  rfl

/-- Witness for C1's zero-match clause at a concrete document with no
related-post links: the appended table consists of the header row alone. -/
theorem claim_C1_witness :
    querySelectorAll (Node.elem (mkTag "html") (.cons (.text "no links here") .nil))
        (.className "blogPostsBlock__titleLink") = []
    ∧ childrenOf (createTable (relatedPostsCells
        (Node.elem (mkTag "html") (.cons (.text "no links here") .nil))))
      = [Node.elem (mkTag "tr")
          (.cons (Node.elem (mkTag "th") (.cons (.raw "Related Posts") .nil)) .nil)] :=
  ⟨rfl, (claim_C1_relatedPostsBlock (mkTag "main") .nil
      (Node.elem (mkTag "html") (.cons (.text "no links here") .nil))).2.2 rfl⟩

/-- A banner element whose background image URL is written with double
quotes (`\x22` is `"`). -/
def dqHeroData : ElemData :=
  { tag := "div", attrs := [], classes := [],
    style := [("background-image", "url(\x22http://x/y.png\x22)")] }

/-- A banner element whose background image URL is written with single
quotes (`\x27` is `'`), as in the spec's example. -/
def sqHeroData : ElemData :=
  { tag := "div", attrs := [], classes := [],
    style := [("background-image", "url(\x27http://x/y.png\x27)")] }

/-- Counterexample to C3 as stated: the source strips only single quotes,
so a background image written with double quotes keeps them in the
extracted source, which therefore is not the URL. -/
theorem claim_C3_counterexample :
    replaceBackgroundByImg (Node.elem dqHeroData .nil) = mkImg "\x22http://x/y.png\x22"
    ∧ ("\x22http://x/y.png\x22" : String) ≠ "http://x/y.png" :=
  ⟨rfl, by decide⟩

/-- Claim C3 (amended: single quotes, not any quotes, are stripped): for
every element with a truthy inline background image, the URL is extracted
from the `url(...)` wrapper with single quotes stripped, a new `img`
element with that source is returned, and the element's slot in its former
parent holds the new image — the original element is gone from the former
parent's children whenever it occurred only in that slot; an element with
no background image is returned unchanged and its parent is untouched. -/
theorem claim_C3_replaceBackgroundByImg :
    (∀ (d : ElemData) (cs : NodeList) (url : String) (pd : ElemData) (pre post : List Node),
      styleGet d "background-image" = some url → url ≠ "" →
        replaceBackgroundByImg (Node.elem d cs) = mkImg (stripUrlWrapper url)
        ∧ replaceBackgroundByImgParent pd pre (Node.elem d cs) post
          = Node.elem pd (NodeList.ofList (pre ++ mkImg (stripUrlWrapper url) :: post))
        ∧ (Node.elem d cs ∉ pre → Node.elem d cs ∉ post →
            Node.elem d cs ∉ childrenOf (replaceBackgroundByImgParent pd pre (Node.elem d cs) post)))
    ∧ (∀ (d : ElemData) (cs : NodeList) (pd : ElemData) (pre post : List Node),
        styleGet d "background-image" = none →
          replaceBackgroundByImg (Node.elem d cs) = Node.elem d cs
          ∧ replaceBackgroundByImgParent pd pre (Node.elem d cs) post
            = Node.elem pd (NodeList.ofList (pre ++ Node.elem d cs :: post)))
    ∧ stripUrlWrapper "url(\x27http://x/y.png\x27)" = "http://x/y.png" := by
  refine ⟨?_, ?_, rfl⟩
  · intro d cs url pd pre post hbg hne
    have h1 : replaceBackgroundByImg (Node.elem d cs) = mkImg (stripUrlWrapper url) := by
      simp [replaceBackgroundByImg, hbg, hne]
    have h2 : replaceBackgroundByImgParent pd pre (Node.elem d cs) post
        = Node.elem pd (NodeList.ofList (pre ++ mkImg (stripUrlWrapper url) :: post)) := by
      simp [replaceBackgroundByImgParent, hbg, hne]
    refine ⟨h1, h2, fun hpre hpost hmem => ?_⟩
    rw [h2] at hmem
    have hmem' : Node.elem d cs ∈ pre ++ mkImg (stripUrlWrapper url) :: post := by
      simpa [childrenOf, NodeList.toList_ofList] using hmem
    rcases List.mem_append.mp hmem' with hin | hin
    · exact hpre hin
    rcases List.mem_cons.mp hin with heq | hin
    · rw [mkImg] at heq
      injection heq with hd _
      rw [hd] at hbg
      simp [styleGet] at hbg
    · exact hpost hin
  · intro d cs pd pre post hbg
    exact ⟨by simp [replaceBackgroundByImg, hbg],
      by simp [replaceBackgroundByImgParent, hbg]⟩

/-- Witness for C3 at a hero banner with a single-quoted background
image. -/
theorem claim_C3_witness :
    styleGet sqHeroData "background-image" = some "url(\x27http://x/y.png\x27)"
    ∧ replaceBackgroundByImg (Node.elem sqHeroData .nil)
      = mkImg (stripUrlWrapper "url(\x27http://x/y.png\x27)")
    ∧ mkImg (stripUrlWrapper "url(\x27http://x/y.png\x27)") = mkImg "http://x/y.png" :=
  ⟨rfl,
    (claim_C3_replaceBackgroundByImg.1 sqHeroData .nil "url(\x27http://x/y.png\x27)"
      (mkTag "section") [] [] rfl (by decide)).1,
    rfl⟩

/-- An iframe with a protocol-relative source, as in the spec's example. -/
def protocolRelIframeData : ElemData :=
  { tag := "iframe", attrs := [("src", "//example.com/v")], classes := [], style := [] }

/-- An iframe with an absolute source. -/
def absoluteIframeData : ElemData :=
  { tag := "iframe", attrs := [("src", "http://host/v")], classes := [], style := [] }

/-- Claim C6: every iframe whose `src` resolves (protocol-relative sources
are prefixed with `https:`) is replaced by an `Embed` block whose single
data row holds a hyperlink to the resolved URL; an iframe whose `src` is
absent or empty is left in place, and the concrete source
`//example.com/v` yields a link to `https://example.com/v`. -/
theorem claim_C6_createEmbeds :
    (∀ (d : ElemData) (cs : NodeList) (s : String),
      d.tag = "iframe" → getAttr d "src" = some s → s ≠ "" →
        replaceEmbedsN (Node.elem d cs)
          = embedTable (if jsStartsWith s "//" then "https:" ++ s else s))
    ∧ (∀ u : String, childrenOf (embedTable u)
        = [Node.elem (mkTag "tr")
              (.cons (Node.elem (mkTag "th") (.cons (.raw "Embed") .nil)) .nil),
           Node.elem (mkTag "tr")
              (.cons (Node.elem (mkTag "td") (.cons (.raw (anchorMarkup u)) .nil)) .nil)])
    ∧ (∀ (d : ElemData) (cs : NodeList),
        d.tag = "iframe" → (getAttr d "src" = none ∨ getAttr d "src" = some "") →
          replaceEmbedsN (Node.elem d cs) = Node.elem d (replaceEmbedsL cs))
    ∧ replaceEmbedsN (Node.elem protocolRelIframeData .nil)
      = embedTable "https://example.com/v"
    ∧ anchorMarkup "https://example.com/v"
      = "<a href=\x22https://example.com/v\x22>https://example.com/v</a>" := by
  refine ⟨?_, fun u => rfl, ?_, rfl, rfl⟩
  · intro d cs s htag hsrc hne
    simp only [replaceEmbedsN, htag, resolveEmbedSrc, hsrc, hne]
    cases hsw : jsStartsWith s "//" <;> simp [hsw]
  · intro d cs htag hsrc
    rcases hsrc with h | h <;> simp [replaceEmbedsN, htag, resolveEmbedSrc, h]

/-- Witness for C6 at an iframe with an absolute (non protocol-relative)
source. -/
theorem claim_C6_witness :
    getAttr absoluteIframeData "src" = some "http://host/v"
    ∧ replaceEmbedsN (Node.elem absoluteIframeData .nil)
      = embedTable (if jsStartsWith "http://host/v" "//" then "https:" ++ "http://host/v"
          else "http://host/v") :=
  ⟨rfl, claim_C6_createEmbeds.1 absoluteIframeData .nil "http://host/v" rfl rfl (by decide)⟩

/-- A callout container carrying BOTH the right and the left modifier
classes. -/
def bothModsCalloutData : ElemData :=
  { tag := "div", attrs := [],
    classes := ["blogPostContent__ctaContainer", "blogPostContent__ctaContainer--right",
      "blogPostContent__ctaContainer--left"],
    style := [] }

/-- A callout container carrying only the right modifier class. -/
def rightCalloutData : ElemData :=
  { tag := "div", attrs := [],
    classes := ["blogPostContent__ctaContainer", "blogPostContent__ctaContainer--right"],
    style := [] }

/-- A callout container carrying no modifier class. -/
def plainCalloutData : ElemData :=
  { tag := "div", attrs := [], classes := ["blogPostContent__ctaContainer"], style := [] }

theorem calloutRows_cons (c : Node) :
    calloutRows c
      = [Cell.str (calloutBlockName c)]
          :: [Cell.one (calloutContainer c)]
          :: (match querySelector c (.tagName "a") with
              | some cta => [[Cell.one cta]]
              | none => []) := rfl

/-- Counterexample to C7 as stated: the `else if` of the source gives the
right modifier precedence, so a container carrying the left-modifier class
(together with the right one) is named `Callout (right)`, not
`Callout (left)` as the claim's second case promises. -/
theorem claim_C7_counterexample :
    bothModsCalloutData.classes.contains "blogPostContent__ctaContainer--left" = true
    ∧ calloutBlockName (Node.elem bothModsCalloutData .nil) = "Callout (right)"
    ∧ ("Callout (right)" : String) ≠ "Callout (left)" :=
  ⟨by decide, rfl, by decide⟩

/-- Claim C7 (amended: the left suffix applies only when the right
modifier is absent): the block name is `Callout (right)` when the
container carries the right-modifier class, `Callout (left)` when it
carries the left-modifier class but not the right one, and `Callout` when
it carries neither; this name is the sole cell of the block's header
row. -/
theorem claim_C7_calloutBlockName :
    ∀ (d : ElemData) (cs : NodeList),
      ("blogPostContent__ctaContainer--right" ∈ d.classes →
        calloutBlockName (Node.elem d cs) = "Callout (right)")
      ∧ ("blogPostContent__ctaContainer--left" ∈ d.classes →
          "blogPostContent__ctaContainer--right" ∉ d.classes →
          calloutBlockName (Node.elem d cs) = "Callout (left)")
      ∧ ("blogPostContent__ctaContainer--right" ∉ d.classes →
          "blogPostContent__ctaContainer--left" ∉ d.classes →
          calloutBlockName (Node.elem d cs) = "Callout")
      ∧ (calloutRows (Node.elem d cs)).head?
        = some [Cell.str (calloutBlockName (Node.elem d cs))]
      ∧ (childrenOf (createCalloutTable (Node.elem d cs))).head?
        = some (Node.elem (mkTag "tr")
            (.cons (Node.elem (mkTag "th")
              (.cons (.raw (calloutBlockName (Node.elem d cs))) .nil)) .nil)) := by
  intro d cs
  refine ⟨fun hr => by simp [calloutBlockName, hr],
    fun hl hr => by simp [calloutBlockName, hl, hr],
    fun hr hl => by simp [calloutBlockName, hl, hr],
    rfl, ?_⟩
  rw [createCalloutTable, calloutRows_cons, childrenOf_createTable_cons]
  rfl

/-- Witness for C7 at a right-modified and at an unmodified callout. -/
theorem claim_C7_witness :
    "blogPostContent__ctaContainer--right" ∈ rightCalloutData.classes
    ∧ calloutBlockName (Node.elem rightCalloutData .nil) = "Callout (right)"
    ∧ calloutBlockName (Node.elem plainCalloutData .nil) = "Callout" :=
  ⟨by decide, (claim_C7_calloutBlockName rightCalloutData .nil).1 (by decide),
    (claim_C7_calloutBlockName plainCalloutData .nil).2.2.1 (by decide) (by decide)⟩

/-- Claim C10: every block built by `createCallouts` has a second row
holding exactly one container `div` — also when both the heading-text and
subheading sub-elements are absent, the container row is still there — and
the block has a third row precisely when an `a` element exists within the
callout, that row holding the link. -/
theorem claim_C10_calloutRows :
    ∀ (d : ElemData) (cs : NodeList),
      (calloutRows (Node.elem d cs)).get? 1
        = some [Cell.one (calloutContainer (Node.elem d cs))]
      ∧ tagOf (calloutContainer (Node.elem d cs)) = "div"
      ∧ (calloutRows (Node.elem d cs)).get? 2
        = (querySelector (Node.elem d cs) (.tagName "a")).map (fun cta => [Cell.one cta])
      ∧ (calloutRows (Node.elem d cs)).length
        = (if (querySelector (Node.elem d cs) (.tagName "a")).isSome then 3 else 2)
      ∧ (childrenOf (createCalloutTable (Node.elem d cs))).get? 1
        = some (Node.elem (mkTag "tr")
            (.cons (Node.elem (mkTag "td")
              (.cons (calloutContainer (Node.elem d cs)) .nil)) .nil)) := by
  intro d cs
  refine ⟨rfl, rfl, ?_, ?_, ?_⟩
  · rw [calloutRows_cons]
    cases h : querySelector (Node.elem d cs) (.tagName "a") <;> simp [h]
  · rw [calloutRows_cons]
    cases h : querySelector (Node.elem d cs) (.tagName "a") <;> simp [h]
  · rw [createCalloutTable, calloutRows_cons, childrenOf_createTable_cons]
    rfl

/-- The presence condition of the `Read Time` field, as the code imposes
it: the `.blogPostContent__metaTop` element must exist AND its trimmed
text must split on newlines into exactly three parts. -/
def readTimeCondition (main : Node) : Bool :=
  match querySelector main (Selector.className "blogPostContent__metaTop") with
  | some metatop => decide ((splitLinesL (jsTrimL (textContentN metatop).data)).length = 3)
  | none => false

theorem readTimeValue_isSome (main : Node) :
    (readTimeValue main).isSome = readTimeCondition main := by
  cases h : querySelector main (Selector.className "blogPostContent__metaTop") with
  | none => simp [readTimeValue, readTimeCondition, h]
  | some metatop =>
    by_cases hc : (splitLinesL (jsTrimL (textContentN metatop).data)).length = 3 <;>
      simp [readTimeValue, readTimeCondition, h, hc]

/-- A `.blogPostContent__metaTop` element whose text is a single line, so
its trimmed text does not split into three parts. -/
def oneLineMetaTop : Node :=
  .elem { tag := "div", attrs := [], classes := ["blogPostContent__metaTop"], style := [] }
    (.cons (.text "5 min read") .nil)

/-- The main region of the C2 counterexample document. -/
def c2Main : Node := .elem (mkTag "main") (.cons oneLineMetaTop .nil)

/-- The C2 counterexample document. -/
def c2Doc : Node := .elem (mkTag "html") (.cons c2Main .nil)

/-- Counterexample to C2 as stated: in this document the `Read Time`
source selector `.blogPostContent__metaTop` exists (both under the main
region and in the document), yet the produced metadata map has no
`Read Time` key, because the element's trimmed text does not split into
exactly three lines. -/
theorem claim_C2_counterexample :
    (querySelector c2Main (Selector.className "blogPostContent__metaTop")).isSome = true
    ∧ (querySelector c2Doc (Selector.className "blogPostContent__metaTop")).isSome = true
    ∧ metaHasKey "Read Time" (createMetadata c2Main c2Doc) = false :=
  ⟨rfl, rfl, by decide⟩

/-- Claim C2 (amended: `Read Time` needs its three-line shape and
`Card Image` needs its pattern/parse chain, beyond bare selector
existence): in both variants each metadata field is present exactly when
its source yields a value — `Title`, `Description`, `Category`,
`Publication Date` and `Image` exactly when their document-level
selector/attribute exists, `Author` exactly when `[rel="author"]` exists
in the main region, `Read Time` exactly when its selector exists and the
trimmed text splits into exactly three lines, and `Card Image` (variant 2)
exactly when the structured-data chain yields a usable URL; an absent
field is omitted from the map — for `Publication Date` this holds for
every `article:published_time` content value, since the content only
feeds the stored string, not the presence test. -/
theorem claim_C2_metadataPresence :
    (∀ main document : Node,
      metaHasKey "Title" (createMetadata main document)
        = (querySelector document (Selector.tagName "title")).isSome
      ∧ metaHasKey "Description" (createMetadata main document)
        = (querySelector document (Selector.attrEq "property" "og:description")).isSome
      ∧ metaHasKey "Category" (createMetadata main document)
        = (querySelector document (Selector.attrEq "property" "article:section")).isSome
      ∧ metaHasKey "Publication Date" (createMetadata main document)
        = (querySelector document (Selector.attrEq "property" "article:published_time")).isSome
      ∧ metaHasKey "Author" (createMetadata main document)
        = (querySelector main (Selector.attrEq "rel" "author")).isSome
      ∧ metaHasKey "Read Time" (createMetadata main document) = readTimeCondition main
      ∧ metaHasKey "Image" (createMetadata main document)
        = (querySelector document (Selector.attrEq "property" "og:image")).isSome)
    ∧ (∀ (main document : Node) (ym : Option String) (parse : String → Option YoastObj),
      metaHasKey "Title" (createMetadataV2 main document ym parse)
        = (querySelector document (Selector.tagName "title")).isSome
      ∧ metaHasKey "Description" (createMetadataV2 main document ym parse)
        = (querySelector document (Selector.attrEq "property" "og:description")).isSome
      ∧ metaHasKey "Category" (createMetadataV2 main document ym parse)
        = (querySelector document (Selector.attrEq "property" "article:section")).isSome
      ∧ metaHasKey "Publication Date" (createMetadataV2 main document ym parse)
        = (querySelector document (Selector.attrEq "property" "article:published_time")).isSome
      ∧ metaHasKey "Author" (createMetadataV2 main document ym parse)
        = (querySelector main (Selector.attrEq "rel" "author")).isSome
      ∧ metaHasKey "Read Time" (createMetadataV2 main document ym parse)
        = readTimeCondition main
      ∧ metaHasKey "Image" (createMetadataV2 main document ym parse)
        = (querySelector document (Selector.attrEq "property" "og:image")).isSome
      ∧ metaHasKey "Card Image" (createMetadataV2 main document ym parse)
        = (cardImageUrl ym parse).isSome) := by
  constructor
  · intro main document
    refine ⟨?_, ?_, ?_, ?_, ?_, ?_, ?_⟩ <;>
      simp [createMetadata, metaHasKey_append, metaHasKey_metaEntry, titleValue,
        descriptionValue, categoryValue, publicationDateValue, authorValue, imageValue,
        readTimeValue_isSome]
  · intro main document ym parse
    refine ⟨?_, ?_, ?_, ?_, ?_, ?_, ?_, ?_⟩ <;>
      simp [createMetadataV2, metaHasKey_append, metaHasKey_metaEntry, titleValue,
        descriptionValue, categoryValue, publicationDateValue, authorValue, imageValue,
        cardImageValue, readTimeValue_isSome]

/-- Counterexample to C8 as stated: in variant 2 the per-iteration
replacement string is `[c.length].map(() => ' ').join('')`, i.e. the
single-element array `[1]` mapped to `[' ']` and joined — one space.  The
sweep therefore replaces the 20 low code points with spaces rather than
stripping them: on the input `"a\x01b"` the identity-rendered text becomes
`"a b"`, not the `"ab"` stripping would give. -/
theorem claim_C8_counterexample :
    postProcessMDv2 (fun s => s) "a\x01b" = "a b"
    ∧ ("a b" : String) ≠ "ab" :=
  ⟨by decide, by decide⟩

/-- Claim C8 (amended: variant 2's sweep replaces each of its 20
characters by a single space rather than stripping them): for every
collaborator rendering and input, variant 1 returns the rendered text with
every no-break space removed and nothing else changed; variant 2 first
maps every occurrence of each of the 20 swept code points (0-9 and 16-25)
to a space and then removes the no-break spaces; neither result retains a
no-break space. -/
theorem claim_C8_postProcessMD :
    (∀ (superPost : String → String) (md : String),
      (postProcessMD superPost md).data
        = (superPost md).data.filter (fun c => !(c == nbspChar)))
    ∧ (∀ (superPost : String → String) (md : String),
      (postProcessMDv2 superPost md).data
        = ((superPost md).data.map (fun c => if c ∈ sweepChars then ' ' else c)).filter
            (fun c => !(c == nbspChar)))
    ∧ sweepChars
      = [Char.ofNat 0, Char.ofNat 1, Char.ofNat 2, Char.ofNat 3, Char.ofNat 4,
         Char.ofNat 5, Char.ofNat 6, Char.ofNat 7, Char.ofNat 8, Char.ofNat 9,
         Char.ofNat 16, Char.ofNat 17, Char.ofNat 18, Char.ofNat 19, Char.ofNat 20,
         Char.ofNat 21, Char.ofNat 22, Char.ofNat 23, Char.ofNat 24, Char.ofNat 25]
    ∧ (∀ (superPost : String → String) (md : String),
        nbspChar ∉ (postProcessMD superPost md).data)
    ∧ (∀ (superPost : String → String) (md : String),
        nbspChar ∉ (postProcessMDv2 superPost md).data) := by
  have h1 : ∀ (superPost : String → String) (md : String),
      (postProcessMD superPost md).data
        = (superPost md).data.filter (fun c => !(c == nbspChar)) := by
    intro superPost md
    rfl
  have h2 : ∀ (superPost : String → String) (md : String),
      (postProcessMDv2 superPost md).data
        = ((superPost md).data.map (fun c => if c ∈ sweepChars then ' ' else c)).filter
            (fun c => !(c == nbspChar)) := by
    intro superPost md
    show (jsStripChar nbspChar
        ((List.range 20).foldl (fun r i => replaceCharBySpace (v2SweepChar i) r)
          (superPost md))).data = _
    simp only [jsStripChar, sweepFoldl, sweepChars]
  refine ⟨h1, h2, by decide, ?_, ?_⟩
  · intro superPost md hmem
    rw [h1] at hmem
    rcases List.mem_filter.mp hmem with ⟨_, hkeep⟩
    simp at hkeep
  · intro superPost md hmem
    rw [h2] at hmem
    rcases List.mem_filter.mp hmem with ⟨_, hkeep⟩
    simp at hkeep

end HelixDOM
